import Mathlib

/-!
Shallow embedding of the `useEffectState` hook engine
(`src/useEffectState/useEffectState.ts`): the circular-dispatch trace guard
(`getNextTrace`), the trace-threading dispatch (`dispatchTrace` / `dispatch`),
the listener built around an effect (`getListener`), the effect registry
(`addEffect`) and teardown (`cleanup`).

JS objects used as string-keyed maps (the trace, `allEffectsArray`, the
`EventTarget` listener table) are embedded as association lists; JS
truthiness of a state value is an explicit `truthy : St → Bool` parameter;
the single-threaded event-loop execution of one dispatch chain is embedded
as a fuel-indexed interpreter returning `none` only on fuel exhaustion.
-/

namespace UseEffectState

/-- Association-list lookup, embedding JS property read `m[a]`. -/
def assocGet {κ β : Type} [DecidableEq κ] : List (κ × β) → κ → Option β
  | [], _ => none
  | (k, v) :: t, a => if k = a then some v else assocGet t a

/-- Association-list update, embedding JS property write `m[a] = b`
(update in place when the key exists, append otherwise). -/
def assocSet {κ β : Type} [DecidableEq κ] : List (κ × β) → κ → β → List (κ × β)
  | [], a, b => [(a, b)]
  | (k, v) :: t, a, b => if k = a then (a, b) :: t else (k, v) :: assocSet t a b

/-- The trace object `TraceDispatch`: action name → recurrence count. -/
abbrev TraceMap := List (String × Nat)

/-- `trace[action] || 0` — a missing entry reads as count 0. -/
def traceGet (t : TraceMap) (a : String) : Nat :=
  (assocGet t a).getD 0

/-- `trace[action] = n`. -/
def traceSet (t : TraceMap) (a : String) (n : Nat) : TraceMap :=
  assocSet t a n

/-- The data of the `Error` thrown by `getNextTrace`: the offending action
and the recurrence count it reached. -/
structure GuardError where
  action : String
  count : Nat
deriving Repr, DecidableEq

/-- The thrown error's message:
`` `Max circular dispatch depth of ${traceCount} reached for ${action}` ``. -/
def errMsg (e : GuardError) : String :=
  "Max circular dispatch depth of " ++ toString e.count ++ " reached for " ++ e.action

/-- Modelled from the spec: the constant `MAXDEPTH` imported from
`useEffectState.constants.ts`, a file that is not under `src/`; the spec
fixes the default of `dispatchMaxCircularCalls` to 20. -/
def MAXDEPTH : Nat := 20

/-- `options?.dispatchMaxCircularCalls || MAXDEPTH`: JS `||` falls through
to the default when the option is absent or falsy (0). -/
def maxTraceDepth (dispatchMaxCircularCalls : Option Nat) : Nat :=
  match dispatchMaxCircularCalls with
  | some n => if n = 0 then MAXDEPTH else n
  | none => MAXDEPTH

/-- `getNextTrace(action, trace?)`: with no inherited trace, start a fresh
trace at count 1; otherwise read `trace[action] || 0`, throw once the count
already exceeds `maxTraceDepth`, else bump the count (to 1 when absent). -/
def getNextTrace (maxD : Nat) (action : String) :
    Option TraceMap → Except GuardError TraceMap
  | none => .ok [(action, 1)]
  | some trace =>
    let traceCount := traceGet trace action
    if traceCount ≠ 0 then
      if traceCount > maxD then .error ⟨action, traceCount⟩
      else .ok (traceSet trace action (traceCount + 1))
    else .ok (traceSet trace action 1)

/-- The body of an effect handler, as the engine interacts with it: it can
complete with a value (`S | void`), throw, or await a nested dispatch
through the trace-bound dispatch function and continue with the settled
value and the then-current state snapshot. -/
inductive EffectBody (St : Type) : Type where
  | ret : Option St → EffectBody St
  | throwE : String → EffectBody St
  | dispatchThen : String → (Option St → St → EffectBody St) → EffectBody St

/-- An effect: current state snapshot in, body out. -/
abbrev Effect (St : Type) := St → EffectBody St

/-- The engine's registry fragment the interpreter routes through: at most
one registered handler per action. -/
abbrev Registry (St : Type) := String → Option (Effect St)

/-- How a dispatch promise ends up: still pending (nobody ever called
`resolve`/`reject`), resolved (`undefined` embedded as `none`), or
rejected with an error message. -/
inductive Outcome (St : Type) where
  | pending : Outcome St
  | resolved : Option St → Outcome St
  | rejected : String → Outcome St
deriving Repr, DecidableEq

/-- How a listener's awaited effect body ends: still pending on a hung
nested dispatch, completed with a value, or threw. -/
inductive EffOut (St : Type) where
  | pending : EffOut St
  | done : Option St → EffOut St
  | threw : String → EffOut St
deriving Repr, DecidableEq

/-- Result of running one dispatch to completion of everything the engine
executes for it. `invoked` lists the actions whose listener fired (in
order), `rets` the completion values of the effects that completed,
`updates` every value written to `stateRef.current`, and `settles` the
number of `resolve`/`reject` calls made on this dispatch's promise. -/
structure DispatchResult (St : Type) where
  state : St
  trace : TraceMap
  outcome : Outcome St
  invoked : List String
  rets : List (Option St)
  updates : List St
  settles : Nat
deriving Repr, DecidableEq

/-- Result of running an effect body: like `DispatchResult` but ending in
the body's own completion rather than a promise settlement. -/
structure InnerRes (St : Type) where
  state : St
  trace : TraceMap
  out : EffOut St
  invoked : List String
  rets : List (Option St)
  updates : List St
deriving Repr, DecidableEq

mutual

/-- One `dispatchTrace(previousTrace)(action)` call on a live target,
run to quiescence. Inside the promise executor, `getNextTrace` either
throws — caught by the `Promise` constructor, rejecting the promise, with
nothing published to the bus — or yields the bumped trace, and the event
is dispatched: with no listener registered nothing settles the promise;
with a listener, the wrapped effect runs against the current
`stateRef.current` and its completion settles the promise as in
`getListener` (truthy value: write `stateRef`, `setState`, resolve with
it; otherwise resolve with `undefined`; a throw rejects). `none` means
the fuel ran out, not a behaviour of the engine. -/
def dispatchOn {St : Type} (reg : Registry St) (truthy : St → Bool) (maxD : Nat)
    (fuel : Nat) (action : String) (prev : Option TraceMap) (s : St) :
    Option (DispatchResult St) :=
  match fuel with
  | 0 => none
  | fuel2 + 1 =>
    match getNextTrace maxD action prev with
    | .error e =>
      some { state := s, trace := prev.getD [], outcome := .rejected (errMsg e),
             invoked := [], rets := [], updates := [], settles := 1 }
    | .ok tr =>
      match reg action with
      | none =>
        some { state := s, trace := tr, outcome := .pending,
               invoked := [], rets := [], updates := [], settles := 0 }
      | some eff =>
        match runBody reg truthy maxD fuel2 (eff s) tr s with
        | none => none
        | some inner =>
          match inner.out with
          | .pending =>
            some { state := inner.state, trace := inner.trace, outcome := .pending,
                   invoked := action :: inner.invoked, rets := inner.rets,
                   updates := inner.updates, settles := 0 }
          | .threw msg =>
            some { state := inner.state, trace := inner.trace, outcome := .rejected msg,
                   invoked := action :: inner.invoked, rets := inner.rets,
                   updates := inner.updates, settles := 1 }
          | .done (some v) =>
            if truthy v then
              some { state := v, trace := inner.trace, outcome := .resolved (some v),
                     invoked := action :: inner.invoked, rets := inner.rets ++ [some v],
                     updates := inner.updates ++ [v], settles := 1 }
            else
              some { state := inner.state, trace := inner.trace, outcome := .resolved none,
                     invoked := action :: inner.invoked, rets := inner.rets ++ [some v],
                     updates := inner.updates, settles := 1 }
          | .done none =>
            some { state := inner.state, trace := inner.trace, outcome := .resolved none,
                   invoked := action :: inner.invoked, rets := inner.rets ++ [none],
                   updates := inner.updates, settles := 1 }

/-- Run an effect body: `await dispatch(a)` inside a handler reuses the
shared trace object (nested counts accumulate), rethrows a rejection,
never resumes after a hung nested dispatch, and otherwise continues with
the settled value and the then-current state. -/
def runBody {St : Type} (reg : Registry St) (truthy : St → Bool) (maxD : Nat)
    (fuel : Nat) (b : EffectBody St) (tr : TraceMap) (s : St) :
    Option (InnerRes St) :=
  match fuel with
  | 0 => none
  | fuel2 + 1 =>
    match b with
    | .ret r =>
      some { state := s, trace := tr, out := .done r,
             invoked := [], rets := [], updates := [] }
    | .throwE msg =>
      some { state := s, trace := tr, out := .threw msg,
             invoked := [], rets := [], updates := [] }
    | .dispatchThen a k =>
      match dispatchOn reg truthy maxD fuel2 a (some tr) s with
      | none => none
      | some d =>
        match d.outcome with
        | .pending =>
          some { state := d.state, trace := d.trace, out := .pending,
                 invoked := d.invoked, rets := d.rets, updates := d.updates }
        | .rejected msg =>
          some { state := d.state, trace := d.trace, out := .threw msg,
                 invoked := d.invoked, rets := d.rets, updates := d.updates }
        | .resolved r =>
          match runBody reg truthy maxD fuel2 (k r d.state) d.trace d.state with
          | none => none
          | some inner2 =>
            some { state := inner2.state, trace := inner2.trace, out := inner2.out,
                   invoked := d.invoked ++ inner2.invoked,
                   rets := d.rets ++ inner2.rets,
                   updates := d.updates ++ inner2.updates }

end

/-- A user-initiated `dispatch(action)`, i.e. `dispatchTrace()(action)`:
on a live target it starts with no inherited trace; after teardown
(`target.current = undefined`) it returns `Promise.resolve(undefined)`
immediately without touching anything. -/
def dispatchTop {St : Type} (reg : Registry St) (truthy : St → Bool) (maxD : Nat)
    (alive : Bool) (fuel : Nat) (action : String) (s : St) :
    Option (DispatchResult St) :=
  if alive then dispatchOn reg truthy maxD fuel action none s
  else
    some { state := s, trace := [], outcome := .resolved none,
           invoked := [], rets := [], updates := [], settles := 1 }

/-- Accumulated observations of a sequence of top-level dispatches. -/
structure SeqRes (St : Type) where
  state : St
  outcomes : List (Outcome St)
  invoked : List String
  rets : List (Option St)
  updates : List St
deriving Repr, DecidableEq

/-- Run a sequence of user-initiated dispatches on a live engine, each one
awaited before the next, threading the state snapshot. -/
def runSeq {St : Type} (reg : Registry St) (truthy : St → Bool) (maxD : Nat)
    (fuel : Nat) : List String → St → Option (SeqRes St)
  | [], s =>
    some { state := s, outcomes := [], invoked := [], rets := [], updates := [] }
  | a :: acts, s =>
    match dispatchTop reg truthy maxD true fuel a s with
    | none => none
    | some d =>
      match runSeq reg truthy maxD fuel acts d.state with
      | none => none
      | some r =>
        some { state := r.state, outcomes := d.outcome :: r.outcomes,
               invoked := d.invoked ++ r.invoked, rets := d.rets ++ r.rets,
               updates := d.updates ++ r.updates }

/-- The state after a chronological list of `stateRef.current` writes. -/
def applyUpd {St : Type} (s : St) (us : List St) : St :=
  us.foldl (fun _ u => u) s

/-!
Registry bookkeeping: `addEffect` / `cleanup` and the `EventTarget`
listener table. A listener is the closure `getListener(effect)` returns;
each call makes a fresh closure, embedded as a fresh numeric identity
taken from a counter, with `wraps` recording which effect the closure
wraps. `registry` is `allEffectsArray.current`; `bus` is the
`EventTarget`'s per-type listener lists; `alive` is whether
`target.current` is still set.
-/

structure RegState where
  nextId : Nat
  registry : List (String × List Nat)
  bus : List (String × List Nat)
  wraps : List (Nat × Nat)
  alive : Bool
deriving Repr, DecidableEq

/-- The engine's starting bookkeeping: empty registry, empty bus, live
target. -/
def initRegState : RegState :=
  { nextId := 0, registry := [], bus := [], wraps := [], alive := true }

/-- `EventTarget.addEventListener(a, l)`: appends, except that adding an
already-registered identical listener for the same type is a no-op. -/
def busAdd (bus : List (String × List Nat)) (a : String) (l : Nat) :
    List (String × List Nat) :=
  let cur := (assocGet bus a).getD []
  if l ∈ cur then bus else assocSet bus a (cur ++ [l])

/-- `EventTarget.removeEventListener(a, l)`: removes the listener from the
type's list (no-op when absent). -/
def busRemove (bus : List (String × List Nat)) (a : String) (l : Nat) :
    List (String × List Nat) :=
  assocSet bus a (((assocGet bus a).getD []).erase l)

/-- `addEffect(action, effect)`: build a fresh listener around the effect,
push it onto `allEffectsArray.current[action]` unless that (impossible
for a fresh closure) already contains it — otherwise reset the entry to
just this listener — and attach it to the live target. -/
def addEffect (st : RegState) (action : String) (effectId : Nat) : RegState :=
  let listener := st.nextId
  let registry2 :=
    match assocGet st.registry action with
    | some handlers =>
      if listener ∉ handlers then assocSet st.registry action (handlers ++ [listener])
      else assocSet st.registry action [listener]
    | none => assocSet st.registry action [listener]
  { nextId := st.nextId + 1,
    registry := registry2,
    bus := if st.alive then busAdd st.bus action listener else st.bus,
    wraps := (listener, effectId) :: st.wraps,
    alive := st.alive }

/-- The `cleanup` loop's removals: for each registry entry, detach each of
its listeners from the (still live) target. -/
def removeAllListeners (alive : Bool) (reg : List (String × List Nat))
    (bus : List (String × List Nat)) : List (String × List Nat) :=
  reg.foldl
    (fun b p => p.2.foldl (fun b2 l => if alive then busRemove b2 p.1 l else b2) b)
    bus

/-- `cleanup()`: walk `allEffectsArray.current`, remove every listener
from the target, then drop the target. The registry map itself is left
as it is. -/
def cleanup (st : RegState) : RegState :=
  { st with bus := removeAllListeners st.alive st.registry st.bus, alive := false }

/-- How many times a dispatch of `action` runs the given effect: the
`EventTarget` invokes, in order, every listener attached for that type,
and each listener wrapping the effect runs it once. -/
def invocations (st : RegState) (action : String) (effectId : Nat) : Nat :=
  if st.alive then
    ((assocGet st.bus action).getD []).countP (fun l => assocGet st.wraps l = some effectId)
  else 0

/-- A sequence of `addEffect` calls, applied in order. -/
def applyOps : List (String × Nat) → RegState → RegState
  | [], st => st
  | (a, e) :: ops, st => applyOps ops (addEffect st a e)

/-!
Test harness used by the theorems, mirroring the repo's own test effects:
a chain action `W` whose handler awaits `k` sequential nested dispatches of
`X` and then returns the state `1`, over `St := Int` with JS number
truthiness (0 is falsy).
-/

/-- JS truthiness of a number: falsy exactly at 0. -/
def truthyInt : Int → Bool := fun n => n != 0

/-- A handler body performing `k` sequential nested dispatches of `"X"`
through the trace-bound dispatch function, then returning `fin`. -/
def seqBody (k : Nat) (fin : Int) : EffectBody Int :=
  match k with
  | 0 => .ret (some fin)
  | n + 1 => .dispatchThen "X" (fun _ _ => seqBody n fin)

/-- Registry for the chain scenario: `"W"` runs `seqBody k 1`; `"X"` is a
side-effect-only handler (returns nothing). -/
def regChain (k : Nat) : Registry Int := fun a =>
  if a = "W" then some (fun _ => seqBody k 1)
  else if a = "X" then some (fun _ => .ret none)
  else none

/-- A handler returning the falsy state `0`. -/
def regZero : Registry Int := fun a =>
  if a = "A" then some (fun _ => .ret (some 0)) else none

/-- A side-effect-only registry: `"A"` returns nothing. -/
def regSide : Registry Int := fun a =>
  if a = "A" then some (fun _ => .ret none) else none

/-- JS-object states for the spec's concrete scenario. -/
abbrev Obj := List (String × Nat)

/-- Objects are always truthy in JS. -/
def truthyObj : Obj → Bool := fun _ => true

/-- The test suite's `effectA`: `(state) => ({ ...state, a: 1 })`. -/
def effectA : Effect Obj := fun s => .ret (some (assocSet s "a" 1))

/-- Registry holding only `effectA` under `"A"`. -/
def regA : Registry Obj := fun a =>
  if a = "A" then some effectA else none

/-! Association-list lemmas. -/

theorem assocGet_assocSet_self {κ β : Type} [DecidableEq κ]
    (m : List (κ × β)) (a : κ) (v : β) :
    assocGet (assocSet m a v) a = some v := by
  induction m with
  | nil => simp [assocGet, assocSet]
  | cons p t ih =>
    by_cases h : p.1 = a
    · simp [assocGet, assocSet, h]
    · simp [assocGet, assocSet, h, ih]

theorem assocGet_assocSet_ne {κ β : Type} [DecidableEq κ]
    (m : List (κ × β)) (a b : κ) (v : β) (h : b ≠ a) :
    assocGet (assocSet m a v) b = assocGet m b := by
  have hab : ¬a = b := fun h2 => h h2.symm
  induction m with
  | nil => simp [assocGet, assocSet, hab]
  | cons p t ih =>
    by_cases hp : p.1 = a
    · simp [assocGet, assocSet, hp, hab]
    · by_cases hb : p.1 = b
      · simp [assocGet, assocSet, hp, hb, h]
      · simp [assocGet, assocSet, hp, hb, ih]

theorem traceGet_traceSet_self (t : TraceMap) (a : String) (n : Nat) :
    traceGet (traceSet t a n) a = n := by
  simp [traceGet, traceSet, assocGet_assocSet_self]

theorem traceGet_traceSet_ne (t : TraceMap) (a b : String) (n : Nat) (h : b ≠ a) :
    traceGet (traceSet t a n) b = traceGet t b := by
  simp [traceGet, traceSet, assocGet_assocSet_ne t a b n h]

/-! Guard lemmas: the two outcomes of `getNextTrace` on an inherited
trace, and the fresh trace on a user-initiated dispatch. -/

theorem getNextTrace_none (maxD : Nat) (a : String) :
    getNextTrace maxD a none = .ok [(a, 1)] := rfl

theorem getNextTrace_ok_of_le (maxD : Nat) (a : String) (tr : TraceMap)
    (h : traceGet tr a ≤ maxD) :
    getNextTrace maxD a (some tr) = .ok (traceSet tr a (traceGet tr a + 1)) := by
  by_cases h0 : traceGet tr a = 0
  · simp only [getNextTrace, h0]
    norm_num
  · simp only [getNextTrace]
    rw [if_pos h0, if_neg (by omega)]

theorem getNextTrace_err_of_gt (maxD : Nat) (a : String) (tr : TraceMap)
    (h : traceGet tr a > maxD) :
    getNextTrace maxD a (some tr) = .error ⟨a, traceGet tr a⟩ := by
  simp only [getNextTrace]
  rw [if_pos (by omega : traceGet tr a ≠ 0), if_pos h]

/-! Unfolding lemmas for single dispatch steps. -/

/-- A user-initiated dispatch on a live target is `dispatchTrace()` —
no inherited trace. -/
theorem dispatchTop_live {St : Type} (reg : Registry St) (truthy : St → Bool)
    (maxD fuel : Nat) (a : String) (s : St) :
    dispatchTop reg truthy maxD true fuel a s = dispatchOn reg truthy maxD fuel a none s := by
  simp [dispatchTop]

/-- When the inherited count for the action already exceeds the maximum,
the guard throws inside the promise executor: the dispatch returns a
promise rejected with the depth error, nothing is published to the bus
(no listener fires), state and trace are untouched. -/
theorem dispatchOn_err {St : Type} (reg : Registry St) (truthy : St → Bool)
    (maxD fuel : Nat) (a : String) (tr : TraceMap) (s : St)
    (h : traceGet tr a > maxD) :
    dispatchOn reg truthy maxD (fuel + 1) a (some tr) s =
      some { state := s, trace := tr, outcome := .rejected (errMsg ⟨a, traceGet tr a⟩),
             invoked := [], rets := [], updates := [], settles := 1 } := by
  simp only [dispatchOn, getNextTrace_err_of_gt maxD a tr h, Option.getD_some]

/-- One-step unfolding of `dispatchOn` on positive fuel. -/
theorem dispatchOn_succ {St : Type} (reg : Registry St) (truthy : St → Bool)
    (maxD fuel : Nat) (a : String) (prev : Option TraceMap) (s : St) :
    dispatchOn reg truthy maxD (fuel + 1) a prev s =
      (match getNextTrace maxD a prev with
      | .error e =>
        some { state := s, trace := prev.getD [], outcome := .rejected (errMsg e),
               invoked := [], rets := [], updates := [], settles := 1 }
      | .ok tr =>
        match reg a with
        | none =>
          some { state := s, trace := tr, outcome := .pending,
                 invoked := [], rets := [], updates := [], settles := 0 }
        | some eff =>
          match runBody reg truthy maxD fuel (eff s) tr s with
          | none => none
          | some inner =>
            match inner.out with
            | .pending =>
              some { state := inner.state, trace := inner.trace, outcome := .pending,
                     invoked := a :: inner.invoked, rets := inner.rets,
                     updates := inner.updates, settles := 0 }
            | .threw msg =>
              some { state := inner.state, trace := inner.trace, outcome := .rejected msg,
                     invoked := a :: inner.invoked, rets := inner.rets,
                     updates := inner.updates, settles := 1 }
            | .done (some v) =>
              if truthy v then
                some { state := v, trace := inner.trace, outcome := .resolved (some v),
                       invoked := a :: inner.invoked, rets := inner.rets ++ [some v],
                       updates := inner.updates ++ [v], settles := 1 }
              else
                some { state := inner.state, trace := inner.trace, outcome := .resolved none,
                       invoked := a :: inner.invoked, rets := inner.rets ++ [some v],
                       updates := inner.updates, settles := 1 }
            | .done none =>
              some { state := inner.state, trace := inner.trace, outcome := .resolved none,
                     invoked := a :: inner.invoked, rets := inner.rets ++ [none],
                     updates := inner.updates, settles := 1 }) := rfl

/-- One-step unfolding of `runBody` on a completed body. -/
theorem runBody_ret {St : Type} (reg : Registry St) (truthy : St → Bool)
    (maxD fuel : Nat) (r : Option St) (tr : TraceMap) (s : St) :
    runBody reg truthy maxD (fuel + 1) (.ret r) tr s =
      some { state := s, trace := tr, out := .done r,
             invoked := [], rets := [], updates := [] } := rfl

/-- One-step unfolding of `runBody` on a throwing body. -/
theorem runBody_throw {St : Type} (reg : Registry St) (truthy : St → Bool)
    (maxD fuel : Nat) (msg : String) (tr : TraceMap) (s : St) :
    runBody reg truthy maxD (fuel + 1) (.throwE msg) tr s =
      some { state := s, trace := tr, out := .threw msg,
             invoked := [], rets := [], updates := [] } := rfl

/-- One-step unfolding of `runBody` on an awaited nested dispatch. -/
theorem runBody_dispatchThen {St : Type} (reg : Registry St) (truthy : St → Bool)
    (maxD fuel : Nat) (a : String) (k : Option St → St → EffectBody St)
    (tr : TraceMap) (s : St) :
    runBody reg truthy maxD (fuel + 1) (.dispatchThen a k) tr s =
      (match dispatchOn reg truthy maxD fuel a (some tr) s with
      | none => none
      | some d =>
        match d.outcome with
        | .pending =>
          some { state := d.state, trace := d.trace, out := .pending,
                 invoked := d.invoked, rets := d.rets, updates := d.updates }
        | .rejected msg =>
          some { state := d.state, trace := d.trace, out := .threw msg,
                 invoked := d.invoked, rets := d.rets, updates := d.updates }
        | .resolved r =>
          match runBody reg truthy maxD fuel (k r d.state) d.trace d.state with
          | none => none
          | some inner2 =>
            some { state := inner2.state, trace := inner2.trace, out := inner2.out,
                   invoked := d.invoked ++ inner2.invoked,
                   rets := d.rets ++ inner2.rets,
                   updates := d.updates ++ inner2.updates }) := rfl

/-- One in-bounds nested dispatch of `"X"` in the chain harness: the count
bumps, the side-effect handler for `"X"` runs and the promise resolves
with `undefined`. -/
theorem dispatchX_ok (k m fuel : Nat) (tr : TraceMap) (s : Int)
    (h : traceGet tr "X" ≤ m) :
    dispatchOn (regChain k) truthyInt m (fuel + 2) "X" (some tr) s =
      some { state := s, trace := traceSet tr "X" (traceGet tr "X" + 1),
             outcome := .resolved none, invoked := ["X"], rets := [none],
             updates := [], settles := 1 } := by
  rw [show fuel + 2 = (fuel + 1) + 1 from rfl, dispatchOn_succ,
      getNextTrace_ok_of_le m "X" tr h]
  rfl

/-! The chain runs, by induction along the nested dispatches. -/

/-- Running the body that makes `j` more nested dispatches of `"X"`, all
in bounds: every `"X"` dispatch resolves, the count accumulates by `j`,
and the body completes with the state `1`. -/
theorem chainBody_ok (k m : Nat) : ∀ (j : Nat) (tr : TraceMap) (s : Int),
    traceGet tr "X" + j ≤ m + 1 →
    ∃ tr2, runBody (regChain k) truthyInt m (j + 2) (seqBody j 1) tr s =
        some { state := s, trace := tr2, out := .done (some 1),
               invoked := List.replicate j "X", rets := List.replicate j none,
               updates := [] } ∧
      traceGet tr2 "X" = traceGet tr "X" + j := by
  intro j
  induction j with
  | zero =>
    intro tr s _
    exact ⟨tr, by simp [seqBody, runBody], by omega⟩
  | succ j ih =>
    intro tr s hle
    have hc : traceGet tr "X" ≤ m := by omega
    rw [show seqBody (j + 1) 1 = .dispatchThen "X" (fun _ _ => seqBody j 1) from rfl]
    rw [show j + 1 + 2 = (j + 2) + 1 from rfl, runBody_dispatchThen]
    rw [dispatchX_ok k m j tr s hc]
    have hle2 : traceGet (traceSet tr "X" (traceGet tr "X" + 1)) "X" + j ≤ m + 1 := by
      rw [traceGet_traceSet_self]; omega
    obtain ⟨tr2, heq, hcount⟩ := ih (traceSet tr "X" (traceGet tr "X" + 1)) s hle2
    dsimp only
    rw [heq]
    refine ⟨tr2, by simp [List.replicate_succ], ?_⟩
    rw [hcount, traceGet_traceSet_self]
    omega

/-- Running the body that would make `j + 1` more nested dispatches of
`"X"` when only `j` of them fit in the bound: the first `j` resolve, the
last one trips the guard and the rejection is rethrown out of the body,
with no state write. -/
theorem chainBody_err (k m : Nat) : ∀ (j : Nat) (tr : TraceMap) (s : Int),
    traceGet tr "X" + j = m + 1 →
    ∃ tr2, runBody (regChain k) truthyInt m (j + 3) (seqBody (j + 1) 1) tr s =
        some { state := s, trace := tr2, out := .threw (errMsg ⟨"X", m + 1⟩),
               invoked := List.replicate j "X", rets := List.replicate j none,
               updates := [] } := by
  intro j
  induction j with
  | zero =>
    intro tr s h0
    rw [show seqBody (0 + 1) 1 = .dispatchThen "X" (fun _ _ => seqBody 0 1) from rfl]
    rw [show (0 : Nat) + 3 = 2 + 1 from rfl, runBody_dispatchThen]
    rw [show (2 : Nat) = 1 + 1 from rfl,
        dispatchOn_err (regChain k) truthyInt m 1 "X" tr s (by omega)]
    refine ⟨tr, ?_⟩
    have hmsg : traceGet tr "X" = m + 1 := by omega
    simp [hmsg]
  | succ j ih =>
    intro tr s h0
    have hc : traceGet tr "X" ≤ m := by omega
    rw [show seqBody (j + 1 + 1) 1 = .dispatchThen "X" (fun _ _ => seqBody (j + 1) 1) from rfl]
    rw [show j + 1 + 3 = (j + 3) + 1 from rfl, runBody_dispatchThen]
    rw [show j + 3 = (j + 1) + 2 from rfl, dispatchX_ok k m (j + 1) tr s hc]
    have h2 : traceGet (traceSet tr "X" (traceGet tr "X" + 1)) "X" + j = m + 1 := by
      rw [traceGet_traceSet_self]; omega
    obtain ⟨tr2, heq⟩ := ih (traceSet tr "X" (traceGet tr "X" + 1)) s h2
    dsimp only
    rw [heq]
    exact ⟨tr2, by simp [List.replicate_succ]⟩

/-- Top-level dispatch of the chain action when all `k` recurrences of
`"X"` stay within the bound `maxD + 1`: the promise resolves with the
handler's state `1`, the state snapshot becomes `1`, and the trace
records `k` recurrences of `"X"`. -/
theorem chainTop_ok (m k : Nat) (h : k ≤ m + 1) :
    ∃ tr2, dispatchTop (regChain k) truthyInt m true (k + 3) "W" 0 =
        some { state := 1, trace := tr2, outcome := .resolved (some 1),
               invoked := "W" :: List.replicate k "X",
               rets := List.replicate k none ++ [some 1],
               updates := [1], settles := 1 } ∧
      traceGet tr2 "X" = k := by
  rw [dispatchTop_live, show k + 3 = (k + 2) + 1 from rfl, dispatchOn_succ,
      getNextTrace_none]
  have hW : regChain k "W" = some (fun _ => seqBody k 1) := by
    unfold regChain
    rw [if_pos rfl]
  dsimp only
  rw [hW]
  have h0 : traceGet [("W", 1)] "X" = 0 := by decide
  obtain ⟨tr2, heq, hcount⟩ := chainBody_ok k m k [("W", 1)] 0 (by rw [h0]; omega)
  dsimp only
  rw [heq]
  refine ⟨tr2, ?_, by rw [hcount, h0]; omega⟩
  have ht : truthyInt 1 = true := by decide
  dsimp only
  rw [ht]
  simp

/-- Top-level dispatch of the chain action when the handler attempts
`maxD + 2` recurrences of `"X"`: the chain's last nested dispatch trips
the guard, the rejection propagates to the top promise with the error
naming `"X"` and the count `maxD + 1`, and the state is never written. -/
theorem chainTop_err (m : Nat) :
    ∃ tr2, dispatchTop (regChain (m + 2)) truthyInt m true (m + 5) "W" 0 =
        some { state := 0, trace := tr2, outcome := .rejected (errMsg ⟨"X", m + 1⟩),
               invoked := "W" :: List.replicate (m + 1) "X",
               rets := List.replicate (m + 1) none,
               updates := [], settles := 1 } := by
  rw [dispatchTop_live, show m + 5 = (m + 4) + 1 from rfl, dispatchOn_succ,
      getNextTrace_none]
  have hW : regChain (m + 2) "W" = some (fun _ => seqBody (m + 2) 1) := by
    unfold regChain
    rw [if_pos rfl]
  dsimp only
  rw [hW]
  have h0 : traceGet [("W", 1)] "X" = 0 := by decide
  obtain ⟨tr2, heq⟩ := chainBody_err (m + 2) m (m + 1) [("W", 1)] 0 (by rw [h0]; omega)
  dsimp only
  rw [show m + 4 = (m + 1) + 3 from rfl, show m + 1 + 1 = m + 2 from rfl] at heq
  rw [heq]
  exact ⟨tr2, by simp⟩

/-! The state-update invariant: `stateRef.current` is written only with
truthy values that some effect completed with. -/

theorem applyUpd_nil {St : Type} (s : St) : applyUpd s [] = s := rfl

theorem applyUpd_append {St : Type} (s : St) (xs ys : List St) :
    applyUpd s (xs ++ ys) = applyUpd (applyUpd s xs) ys := by
  simp [applyUpd, List.foldl_append]

theorem applyUpd_concat {St : Type} (s : St) (xs : List St) (v : St) :
    applyUpd s (xs ++ [v]) = v := by
  rw [applyUpd_append]
  rfl

/-- Interpreter invariant, by mutual induction on fuel: for both a whole
dispatch and an effect body run, the final state snapshot is the starting
one followed by the logged writes, and every logged write is a truthy
value that appears among the effects' completion values. -/
theorem interp_inv {St : Type} (reg : Registry St) (truthy : St → Bool) (maxD : Nat) :
    ∀ fuel : Nat,
      (∀ (a : String) (prev : Option TraceMap) (s : St) (d : DispatchResult St),
        dispatchOn reg truthy maxD fuel a prev s = some d →
          d.state = applyUpd s d.updates ∧
          ∀ u ∈ d.updates, truthy u = true ∧ some u ∈ d.rets) ∧
      (∀ (b : EffectBody St) (tr : TraceMap) (s : St) (i : InnerRes St),
        runBody reg truthy maxD fuel b tr s = some i →
          i.state = applyUpd s i.updates ∧
          ∀ u ∈ i.updates, truthy u = true ∧ some u ∈ i.rets) := by
  intro fuel
  induction fuel with
  | zero =>
    constructor
    · intro a prev s d h
      exact absurd h (by rw [show dispatchOn reg truthy maxD 0 a prev s = none from rfl]; simp)
    · intro b tr s i h
      exact absurd h (by rw [show runBody reg truthy maxD 0 b tr s = none from rfl]; simp)
  | succ fuel ih =>
    obtain ⟨ihD, ihR⟩ := ih
    constructor
    · intro a prev s d h
      rw [dispatchOn_succ] at h
      cases hg : getNextTrace maxD a prev with
      | error e =>
        rw [hg] at h
        dsimp only at h
        cases h
        exact ⟨rfl, by simp⟩
      | ok tr2 =>
        rw [hg] at h
        dsimp only at h
        cases hr : reg a with
        | none =>
          rw [hr] at h
          dsimp only at h
          cases h
          exact ⟨rfl, by simp⟩
        | some eff =>
          rw [hr] at h
          dsimp only at h
          cases hrb : runBody reg truthy maxD fuel (eff s) tr2 s with
          | none => rw [hrb] at h; dsimp only at h; cases h
          | some inner =>
            rw [hrb] at h
            dsimp only at h
            obtain ⟨hstate, hupd⟩ := ihR (eff s) tr2 s inner hrb
            cases ho : inner.out with
            | pending =>
              rw [ho] at h
              dsimp only at h
              cases h
              exact ⟨hstate, hupd⟩
            | threw msg =>
              rw [ho] at h
              dsimp only at h
              cases h
              exact ⟨hstate, hupd⟩
            | done r =>
              cases r with
              | none =>
                rw [ho] at h
                dsimp only at h
                cases h
                refine ⟨hstate, ?_⟩
                intro u hu
                obtain ⟨h1, h2⟩ := hupd u hu
                exact ⟨h1, by simp [h2]⟩
              | some v =>
                rw [ho] at h
                dsimp only at h
                by_cases htv : truthy v = true
                · rw [if_pos htv] at h
                  cases h
                  refine ⟨(applyUpd_concat s inner.updates v).symm, ?_⟩
                  intro u hu
                  rcases List.mem_append.mp hu with hu1 | hu2
                  · obtain ⟨h1, h2⟩ := hupd u hu1
                    exact ⟨h1, by simp [h2]⟩
                  · have : u = v := by simpa using hu2
                    subst this
                    exact ⟨htv, by simp⟩
                · rw [if_neg htv] at h
                  cases h
                  refine ⟨hstate, ?_⟩
                  intro u hu
                  obtain ⟨h1, h2⟩ := hupd u hu
                  exact ⟨h1, by simp [h2]⟩
    · intro b tr s i h
      cases b with
      | ret r =>
        rw [runBody_ret] at h
        cases h
        exact ⟨rfl, by simp⟩
      | throwE msg =>
        rw [runBody_throw] at h
        cases h
        exact ⟨rfl, by simp⟩
      | dispatchThen a k =>
        rw [runBody_dispatchThen] at h
        cases hd : dispatchOn reg truthy maxD fuel a (some tr) s with
        | none => rw [hd] at h; dsimp only at h; cases h
        | some d =>
          rw [hd] at h
          dsimp only at h
          obtain ⟨hstate, hupd⟩ := ihD a (some tr) s d hd
          cases ho : d.outcome with
          | pending =>
            rw [ho] at h
            dsimp only at h
            cases h
            exact ⟨hstate, hupd⟩
          | rejected msg =>
            rw [ho] at h
            dsimp only at h
            cases h
            exact ⟨hstate, hupd⟩
          | resolved r =>
            rw [ho] at h
            dsimp only at h
            cases hrb : runBody reg truthy maxD fuel (k r d.state) d.trace d.state with
            | none => rw [hrb] at h; dsimp only at h; cases h
            | some inner2 =>
              rw [hrb] at h
              dsimp only at h
              cases h
              obtain ⟨hstate2, hupd2⟩ := ihR (k r d.state) d.trace d.state inner2 hrb
              refine ⟨?_, ?_⟩
              · rw [applyUpd_append, ← hstate, hstate2]
              · intro u hu
                rcases List.mem_append.mp hu with hu1 | hu2
                · obtain ⟨h1, h2⟩ := hupd u hu1
                  exact ⟨h1, by simp [h2]⟩
                · obtain ⟨h1, h2⟩ := hupd2 u hu2
                  exact ⟨h1, by simp [h2]⟩

/-! Dispatch sequences. -/

theorem runSeq_nil {St : Type} (reg : Registry St) (truthy : St → Bool)
    (maxD fuel : Nat) (s : St) :
    runSeq reg truthy maxD fuel [] s =
      some { state := s, outcomes := [], invoked := [], rets := [], updates := [] } := rfl

theorem runSeq_cons {St : Type} (reg : Registry St) (truthy : St → Bool)
    (maxD fuel : Nat) (a : String) (acts : List String) (s : St) :
    runSeq reg truthy maxD fuel (a :: acts) s =
      (match dispatchTop reg truthy maxD true fuel a s with
      | none => none
      | some d =>
        match runSeq reg truthy maxD fuel acts d.state with
        | none => none
        | some r =>
          some { state := r.state, outcomes := d.outcome :: r.outcomes,
                 invoked := d.invoked ++ r.invoked, rets := d.rets ++ r.rets,
                 updates := d.updates ++ r.updates }) := rfl

/-- The state-update invariant lifted to a whole sequence of awaited
user-initiated dispatches. -/
theorem runSeq_inv {St : Type} (reg : Registry St) (truthy : St → Bool)
    (maxD fuel : Nat) :
    ∀ (acts : List String) (s : St) (r : SeqRes St),
      runSeq reg truthy maxD fuel acts s = some r →
        r.state = applyUpd s r.updates ∧
        ∀ u ∈ r.updates, truthy u = true ∧ some u ∈ r.rets := by
  intro acts
  induction acts with
  | nil =>
    intro s r h
    rw [runSeq_nil] at h
    cases h
    exact ⟨rfl, by simp⟩
  | cons a acts ih =>
    intro s r h
    rw [runSeq_cons] at h
    cases hd : dispatchTop reg truthy maxD true fuel a s with
    | none => rw [hd] at h; dsimp only at h; cases h
    | some d =>
      rw [hd] at h
      dsimp only at h
      cases hrest : runSeq reg truthy maxD fuel acts d.state with
      | none => rw [hrest] at h; dsimp only at h; cases h
      | some r2 =>
        rw [hrest] at h
        dsimp only at h
        cases h
        have hdd : dispatchOn reg truthy maxD fuel a none s = some d := by
          rw [← dispatchTop_live]; exact hd
        obtain ⟨hstate1, hupd1⟩ := (interp_inv reg truthy maxD fuel).1 a none s d hdd
        obtain ⟨hstate2, hupd2⟩ := ih d.state r2 hrest
        refine ⟨?_, ?_⟩
        · rw [applyUpd_append, ← hstate1, hstate2]
        · intro u hu
          rcases List.mem_append.mp hu with hu1 | hu2
          · obtain ⟨h1, h2⟩ := hupd1 u hu1
            exact ⟨h1, by simp [h2]⟩
          · obtain ⟨h1, h2⟩ := hupd2 u hu2
            exact ⟨h1, by simp [h2]⟩

/-- The final dispatch of a sequence behaves exactly as a fresh
user-initiated dispatch from the accumulated state: nothing of the earlier
dispatches' traces enters its outcome. -/
theorem runSeq_last_independent {St : Type} (reg : Registry St) (truthy : St → Bool)
    (maxD fuel : Nat) :
    ∀ (acts : List String) (a : String) (s : St) (r : SeqRes St),
      runSeq reg truthy maxD fuel (acts ++ [a]) s = some r →
      ∃ r1 d, runSeq reg truthy maxD fuel acts s = some r1 ∧
        dispatchTop reg truthy maxD true fuel a r1.state = some d ∧
        r.outcomes = r1.outcomes ++ [d.outcome] ∧ r.state = d.state := by
  intro acts
  induction acts with
  | nil =>
    intro a s r h
    rw [List.nil_append, runSeq_cons] at h
    cases hd : dispatchTop reg truthy maxD true fuel a s with
    | none => rw [hd] at h; dsimp only at h; cases h
    | some d =>
      rw [hd] at h
      dsimp only at h
      rw [runSeq_nil] at h
      dsimp only at h
      cases h
      exact ⟨_, d, runSeq_nil reg truthy maxD fuel s, hd, by simp, rfl⟩
  | cons b acts ih =>
    intro a s r h
    rw [List.cons_append, runSeq_cons] at h
    cases hd0 : dispatchTop reg truthy maxD true fuel b s with
    | none => rw [hd0] at h; dsimp only at h; cases h
    | some d0 =>
      rw [hd0] at h
      dsimp only at h
      cases hrest : runSeq reg truthy maxD fuel (acts ++ [a]) d0.state with
      | none => rw [hrest] at h; dsimp only at h; cases h
      | some r2 =>
        rw [hrest] at h
        dsimp only at h
        cases h
        obtain ⟨r1t, d, h1, h2, h3, h4⟩ := ih a d0.state r2 hrest
        refine ⟨{ state := r1t.state, outcomes := d0.outcome :: r1t.outcomes,
                  invoked := d0.invoked ++ r1t.invoked, rets := d0.rets ++ r1t.rets,
                  updates := d0.updates ++ r1t.updates }, d, ?_, h2, ?_, h4⟩
        · rw [runSeq_cons, hd0]
          dsimp only
          rw [h1]
        · dsimp only
          rw [h3, List.cons_append]

/-! Registry bookkeeping lemmas, towards the behaviour of `cleanup`. -/

theorem foldl_erase_self : ∀ l : List Nat, List.foldl List.erase l l = [] := by
  intro l
  induction l with
  | nil => rfl
  | cons x t ih => rw [List.foldl_cons, List.erase_cons_head]; exact ih

theorem assocGet_eq_none {κ β : Type} [DecidableEq κ] (m : List (κ × β)) (a : κ)
    (h : a ∉ m.map Prod.fst) : assocGet m a = none := by
  induction m with
  | nil => rfl
  | cons p t ih =>
    simp only [List.map_cons, List.mem_cons] at h
    push_neg at h
    rw [show assocGet (p :: t) a = if p.1 = a then some p.2 else assocGet t a from rfl,
        if_neg (fun h2 => h.1 h2.symm)]
    exact ih h.2

theorem assocGet_of_mem_nodup {κ β : Type} [DecidableEq κ] :
    ∀ (m : List (κ × β)) (p : κ × β), (m.map Prod.fst).Nodup → p ∈ m →
      assocGet m p.1 = some p.2 := by
  intro m
  induction m with
  | nil => intro p _ hp; cases hp
  | cons q t ih =>
    intro p hm hp
    simp only [List.map_cons, List.nodup_cons] at hm
    rcases List.mem_cons.mp hp with h1 | h2
    · subst h1
      rw [show assocGet (p :: t) p.1 = if p.1 = p.1 then some p.2 else assocGet t p.1 from rfl,
          if_pos rfl]
    · have hne : q.1 ≠ p.1 := by
        intro he
        exact hm.1 (he ▸ List.mem_map.mpr ⟨p, h2, rfl⟩)
      rw [show assocGet (q :: t) p.1 = if q.1 = p.1 then some q.2 else assocGet t p.1 from rfl,
          if_neg hne]
      exact ih p hm.2 h2

theorem assocGet_mem {κ β : Type} [DecidableEq κ] :
    ∀ (m : List (κ × β)) (a : κ) (v : β), assocGet m a = some v → (a, v) ∈ m := by
  intro m
  induction m with
  | nil => intro a v h; cases h
  | cons q t ih =>
    intro a v h
    rw [show assocGet (q :: t) a = if q.1 = a then some q.2 else assocGet t a from rfl] at h
    by_cases hq : q.1 = a
    · rw [if_pos hq] at h
      cases h
      have hqe : (a, q.2) = q := by rw [← hq]
      rw [hqe]
      exact List.mem_cons_self q t
    · rw [if_neg hq] at h
      exact List.mem_cons_of_mem q (ih a v h)

theorem keys_assocSet_sub {κ β : Type} [DecidableEq κ] :
    ∀ (m : List (κ × β)) (a b : κ) (v : β),
      b ∈ (assocSet m a v).map Prod.fst → b = a ∨ b ∈ m.map Prod.fst := by
  intro m
  induction m with
  | nil => intro a b v h; simp [assocSet] at h; exact Or.inl h
  | cons q t ih =>
    intro a b v h
    rw [show assocSet (q :: t) a v =
          if q.1 = a then (a, v) :: t else q :: assocSet t a v from rfl] at h
    by_cases hq : q.1 = a
    · rw [if_pos hq] at h
      simp only [List.map_cons, List.mem_cons] at h
      rcases h with h | h
      · exact Or.inl h
      · exact Or.inr (by rw [List.map_cons]; exact List.mem_cons_of_mem q.1 h)
    · rw [if_neg hq] at h
      simp only [List.map_cons, List.mem_cons] at h
      rcases h with h | h
      · exact Or.inr (by simp [h])
      · rcases ih a b v h with h2 | h2
        · exact Or.inl h2
        · exact Or.inr (by rw [List.map_cons]; exact List.mem_cons_of_mem q.1 h2)

theorem keys_assocSet_nodup {κ β : Type} [DecidableEq κ] :
    ∀ (m : List (κ × β)) (a : κ) (v : β),
      (m.map Prod.fst).Nodup → ((assocSet m a v).map Prod.fst).Nodup := by
  intro m
  induction m with
  | nil => intro a v _; simp [assocSet]
  | cons q t ih =>
    intro a v h
    simp only [List.map_cons, List.nodup_cons] at h
    rw [show assocSet (q :: t) a v =
          if q.1 = a then (a, v) :: t else q :: assocSet t a v from rfl]
    by_cases hq : q.1 = a
    · rw [if_pos hq]
      simp only [List.map_cons, List.nodup_cons]
      exact ⟨hq ▸ h.1, h.2⟩
    · rw [if_neg hq]
      simp only [List.map_cons, List.nodup_cons]
      refine ⟨?_, ih a v h.2⟩
      intro hmem
      rcases keys_assocSet_sub t a q.1 v hmem with h2 | h2
      · exact hq h2
      · exact h.1 h2

theorem mem_assocSet {κ β : Type} [DecidableEq κ] :
    ∀ (m : List (κ × β)) (a : κ) (v : β) (p : κ × β),
      p ∈ assocSet m a v → p = (a, v) ∨ p ∈ m := by
  intro m
  induction m with
  | nil => intro a v p h; simp [assocSet] at h; exact Or.inl h
  | cons q t ih =>
    intro a v p h
    rw [show assocSet (q :: t) a v =
          if q.1 = a then (a, v) :: t else q :: assocSet t a v from rfl] at h
    by_cases hq : q.1 = a
    · rw [if_pos hq] at h
      rcases List.mem_cons.mp h with h | h
      · exact Or.inl h
      · exact Or.inr (List.mem_cons_of_mem q h)
    · rw [if_neg hq] at h
      rcases List.mem_cons.mp h with h | h
      · exact Or.inr (h ▸ List.mem_cons_self q t)
      · rcases ih a v p h with h2 | h2
        · exact Or.inl h2
        · exact Or.inr (List.mem_cons_of_mem q h2)

/-- Folding `removeEventListener` over a listener list: the action's bus
entry loses exactly those listeners; every other action's entry is
untouched. -/
theorem busRemove_fold (a : String) :
    ∀ (ls : List Nat) (bus : List (String × List Nat)) (cur : List Nat),
      assocGet bus a = some cur →
      assocGet (List.foldl (fun b2 l => busRemove b2 a l) bus ls) a =
          some (List.foldl List.erase cur ls) ∧
      ∀ b, b ≠ a →
        assocGet (List.foldl (fun b2 l => busRemove b2 a l) bus ls) b = assocGet bus b := by
  intro ls
  induction ls with
  | nil => intro bus cur h; exact ⟨h, fun b _ => rfl⟩
  | cons l t ih =>
    intro bus cur h
    rw [List.foldl_cons]
    have hstep : busRemove bus a l = assocSet bus a (cur.erase l) := by
      unfold busRemove
      rw [h]
      rfl
    rw [hstep]
    obtain ⟨h1, h2⟩ := ih (assocSet bus a (cur.erase l)) (cur.erase l)
      (assocGet_assocSet_self bus a (cur.erase l))
    refine ⟨by rw [h1, List.foldl_cons], ?_⟩
    intro b hb
    rw [h2 b hb, assocGet_assocSet_ne bus a b (cur.erase l) hb]

/-- Folding the `cleanup` removals over every registry entry empties each
registered action's bus entry and leaves unregistered actions alone. -/
theorem detach_all :
    ∀ (reg bus : List (String × List Nat)),
      (reg.map Prod.fst).Nodup →
      (∀ p ∈ reg, assocGet bus p.1 = some p.2) →
      (∀ p ∈ reg,
        assocGet (List.foldl (fun b q => List.foldl (fun b2 l => busRemove b2 q.1 l) b q.2) bus reg) p.1 =
          some []) ∧
      (∀ b, b ∉ reg.map Prod.fst →
        assocGet (List.foldl (fun b q => List.foldl (fun b2 l => busRemove b2 q.1 l) b q.2) bus reg) b =
          assocGet bus b) := by
  intro reg
  induction reg with
  | nil => intro bus _ _; exact ⟨fun p hp => absurd hp (List.not_mem_nil p), fun b _ => rfl⟩
  | cons q t ih =>
    intro bus hnd hget
    simp only [List.map_cons, List.nodup_cons] at hnd
    rw [List.foldl_cons]
    obtain ⟨hq1, hq2⟩ := busRemove_fold q.1 q.2 bus q.2 (hget q (List.mem_cons_self q t))
    rw [foldl_erase_self q.2] at hq1
    have hgett : ∀ p ∈ t, assocGet (List.foldl (fun b2 l => busRemove b2 q.1 l) bus q.2) p.1 = some p.2 := by
      intro p hp
      have hne : p.1 ≠ q.1 := by
        intro he
        exact hnd.1 (he ▸ List.mem_map.mpr ⟨p, hp, rfl⟩)
      rw [hq2 p.1 hne]
      exact hget p (List.mem_cons_of_mem q hp)
    obtain ⟨ih1, ih2⟩ := ih (List.foldl (fun b2 l => busRemove b2 q.1 l) bus q.2) hnd.2 hgett
    constructor
    · intro p hp
      rcases List.mem_cons.mp hp with h | h
      · subst h
        rw [ih2 p.1 hnd.1]
        exact hq1
      · exact ih1 p h
    · intro b hb
      simp only [List.map_cons, List.mem_cons] at hb
      push_neg at hb
      rw [ih2 b hb.2, hq2 b (fun he => hb.1 he)]

/-! The reachable-registry invariant: the bus mirrors the registry, keys
are unique, and every recorded listener identity is below the counter. -/

def RegInv (st : RegState) : Prop :=
  st.bus = st.registry ∧ (st.registry.map Prod.fst).Nodup ∧
  (∀ p ∈ st.registry, ∀ l ∈ p.2, l < st.nextId) ∧ st.alive = true

theorem regInv_init : RegInv initRegState :=
  ⟨rfl, List.nodup_nil, fun p hp => absurd hp (List.not_mem_nil p), rfl⟩

theorem addEffect_nextId (st : RegState) (a : String) (e : Nat) :
    (addEffect st a e).nextId = st.nextId + 1 := rfl

theorem addEffect_alive (st : RegState) (a : String) (e : Nat) :
    (addEffect st a e).alive = st.alive := rfl

theorem addEffect_registry_none (st : RegState) (a : String) (e : Nat)
    (hget : assocGet st.registry a = none) :
    (addEffect st a e).registry = assocSet st.registry a [st.nextId] := by
  simp only [addEffect, hget]

theorem addEffect_registry_push (st : RegState) (a : String) (e : Nat)
    (hs : List Nat) (hget : assocGet st.registry a = some hs)
    (hmem : st.nextId ∉ hs) :
    (addEffect st a e).registry = assocSet st.registry a (hs ++ [st.nextId]) := by
  simp only [addEffect, hget, if_pos hmem]

theorem addEffect_bus_alive (st : RegState) (a : String) (e : Nat)
    (halive : st.alive = true) :
    (addEffect st a e).bus = busAdd st.bus a st.nextId := by
  simp only [addEffect, halive, if_true]

theorem busAdd_eq (bus : List (String × List Nat)) (a : String) (n : Nat)
    (cur : List Nat) (hget : (assocGet bus a).getD [] = cur) (hn : n ∉ cur) :
    busAdd bus a n = assocSet bus a (cur ++ [n]) := by
  simp only [busAdd, hget, if_neg hn]

theorem regInv_addEffect (st : RegState) (a : String) (e : Nat) (h : RegInv st) :
    RegInv (addEffect st a e) := by
  obtain ⟨hbus, hnd, hbound, halive⟩ := h
  cases hget : assocGet st.registry a with
  | none =>
    have hreg := addEffect_registry_none st a e hget
    have hbusget : (assocGet st.bus a).getD [] = [] := by
      rw [hbus, hget]
      rfl
    have hbus2 : (addEffect st a e).bus = assocSet st.bus a [st.nextId] := by
      rw [addEffect_bus_alive st a e halive,
          busAdd_eq st.bus a st.nextId [] hbusget (List.not_mem_nil _),
          List.nil_append]
    refine ⟨?_, ?_, ?_, ?_⟩
    · rw [hbus2, hreg, hbus]
    · rw [hreg]
      exact keys_assocSet_nodup _ a _ hnd
    · rw [hreg, addEffect_nextId]
      intro p hp l hl
      rcases mem_assocSet _ a _ p hp with h2 | h2
      · subst h2
        simp only [List.mem_singleton] at hl
        omega
      · exact Nat.lt_trans (hbound p h2 l hl) (Nat.lt_succ_self _)
    · rw [addEffect_alive]
      exact halive
  | some hs =>
    have hnotin : st.nextId ∉ hs := by
      intro hmem
      have := hbound (a, hs) (assocGet_mem _ a hs hget) st.nextId hmem
      omega
    have hreg := addEffect_registry_push st a e hs hget hnotin
    have hbusget : (assocGet st.bus a).getD [] = hs := by
      rw [hbus, hget]
      rfl
    have hbus2 : (addEffect st a e).bus = assocSet st.bus a (hs ++ [st.nextId]) := by
      rw [addEffect_bus_alive st a e halive,
          busAdd_eq st.bus a st.nextId hs hbusget hnotin]
    refine ⟨?_, ?_, ?_, ?_⟩
    · rw [hbus2, hreg, hbus]
    · rw [hreg]
      exact keys_assocSet_nodup _ a _ hnd
    · rw [hreg, addEffect_nextId]
      intro p hp l hl
      rcases mem_assocSet _ a _ p hp with h2 | h2
      · subst h2
        simp only at hl
        rcases List.mem_append.mp hl with hl1 | hl2
        · have := hbound (a, hs) (assocGet_mem _ a hs hget) l hl1
          omega
        · simp only [List.mem_singleton] at hl2
          omega
      · exact Nat.lt_trans (hbound p h2 l hl) (Nat.lt_succ_self _)
    · rw [addEffect_alive]
      exact halive

theorem regInv_applyOps : ∀ (ops : List (String × Nat)) (st : RegState),
    RegInv st → RegInv (applyOps ops st) := by
  intro ops
  induction ops with
  | nil => intro st h; exact h
  | cons p ops ih =>
    intro st h
    obtain ⟨a, e⟩ := p
    rw [show applyOps ((a, e) :: ops) st = applyOps ops (addEffect st a e) from rfl]
    exact ih _ (regInv_addEffect st a e h)

/-- On any reachable registry state, `cleanup` leaves every action's bus
listener list empty: every attached handler has been detached. -/
theorem cleanup_bus_empty (st : RegState) (h : RegInv st) (a : String) :
    (assocGet (cleanup st).bus a).getD [] = [] := by
  obtain ⟨hbus, hnd, hbound, halive⟩ := h
  have hc : (cleanup st).bus = removeAllListeners st.alive st.registry st.bus := rfl
  have hrm : removeAllListeners true st.registry st.bus =
      List.foldl (fun b q => List.foldl (fun b2 l => busRemove b2 q.1 l) b q.2)
        st.bus st.registry := by
    simp [removeAllListeners]
  rw [hc, halive, hrm, hbus]
  obtain ⟨h1, h2⟩ := detach_all st.registry st.registry hnd
    (fun p hp => assocGet_of_mem_nodup _ p hnd hp)
  by_cases hk : a ∈ st.registry.map Prod.fst
  · obtain ⟨p, hp, hpa⟩ := List.mem_map.mp hk
    rw [← hpa, h1 p hp]
    rfl
  · rw [h2 a hk, assocGet_eq_none st.registry a hk]
    rfl

theorem cleanup_registry (st : RegState) : (cleanup st).registry = st.registry := rfl

theorem cleanup_alive (st : RegState) : (cleanup st).alive = false := rfl

/-!
The claims.
-/

/-- C1, amended: within one top-level dispatch, a chain in which action
`X` recurs at most `maxD + 1` times — in particular exactly `maxD` times —
succeeds (the promise resolves and the trace records the recurrences),
while a chain attempting a further recurrence once the count stands at
`maxD + 1 > maxD` rejects with an error naming `X` and that count, the
state never being written. The original claim's "recurs more than the
maximum ⇒ rejects" fails at `maxD + 1` recurrences (see the
counterexample): the guard only fires when the pre-dispatch count already
exceeds the maximum. -/
theorem c1_guard_threshold (m k : Nat) :
    (k ≤ m + 1 →
      ∃ tr2, dispatchTop (regChain k) truthyInt m true (k + 3) "W" 0 =
          some { state := 1, trace := tr2, outcome := .resolved (some 1),
                 invoked := "W" :: List.replicate k "X",
                 rets := List.replicate k none ++ [some 1],
                 updates := [1], settles := 1 } ∧
        traceGet tr2 "X" = k) ∧
    (∃ tr3, dispatchTop (regChain (m + 2)) truthyInt m true (m + 5) "W" 0 =
        some { state := 0, trace := tr3,
               outcome := .rejected (errMsg ⟨"X", m + 1⟩),
               invoked := "W" :: List.replicate (m + 1) "X",
               rets := List.replicate (m + 1) none,
               updates := [], settles := 1 } ∧
      m + 1 > m) := by
  constructor
  · exact fun h => chainTop_ok m k h
  · obtain ⟨tr3, h3⟩ := chainTop_err m
    exact ⟨tr3, h3, Nat.lt_succ_self m⟩

/-- C1 witness: at the default maximum 20, a chain in which `X` recurs
exactly 20 times resolves. -/
theorem c1_guard_threshold_witness :
    20 ≤ 20 + 1 ∧
    (∃ tr2, dispatchTop (regChain 20) truthyInt 20 true (20 + 3) "W" 0 =
        some { state := 1, trace := tr2, outcome := .resolved (some 1),
               invoked := "W" :: List.replicate 20 "X",
               rets := List.replicate 20 none ++ [some 1],
               updates := [1], settles := 1 } ∧
      traceGet tr2 "X" = 20) :=
  ⟨by decide, (c1_guard_threshold 20 20).1 (by decide)⟩

/-- C1 counterexample to the claim as stated: with the default maximum
(`maxTraceDepth none = 20`), a chain in which `X` recurs 21 times — more
than the configured maximum — does not reject: the dispatch resolves. -/
theorem c1_counterexample :
    ∃ tr2, dispatchTop (regChain 21) truthyInt (maxTraceDepth none) true (21 + 3) "W" 0 =
        some { state := 1, trace := tr2, outcome := .resolved (some 1),
               invoked := "W" :: List.replicate 21 "X",
               rets := List.replicate 21 none ++ [some 1],
               updates := [1], settles := 1 } ∧
      traceGet tr2 "X" = 21 ∧ 21 > maxTraceDepth none := by
  obtain ⟨tr2, heq, hcount⟩ := chainTop_ok (maxTraceDepth none) 21 (by decide)
  exact ⟨tr2, heq, hcount, by decide⟩

/-- C2: calling `addEffect` twice with the identical effect (here effect
identity 7) for the same action is not idempotent — two distinct listener
closures are created and attached, so one dispatch of `"A"` runs the
effect twice. The registry ends with two listeners for `"A"`; the
`includes` dedup check in the source can never fire because the fresh
closure is compared. -/
theorem c2_double_registration_runs_twice :
    invocations (addEffect (addEffect initRegState "A" 7) "A" 7) "A" 7 = 2 ∧
    (addEffect (addEffect initRegState "A" 7) "A" 7).registry = [("A", [0, 1])] ∧
    (2 : Nat) ≠ 1 := by
  decide

/-- C3: after teardown (`target.current = undefined`), every dispatch,
for any action, returns `Promise.resolve(undefined)` immediately: one
settlement, no listener fires, no state write, state unchanged. -/
theorem c3_post_teardown_dispatch {St : Type} (reg : Registry St) (truthy : St → Bool)
    (maxD fuel : Nat) (a : String) (s : St) :
    dispatchTop reg truthy maxD false fuel a s =
      some { state := s, trace := [], outcome := .resolved none,
             invoked := [], rets := [], updates := [], settles := 1 } := rfl

/-- C4: over any sequence of user-initiated dispatches, the state
snapshot moves only through the logged writes, every write is a truthy
value some effect completed with, and if every effect completion was
`undefined` (side-effect-only handlers) the observed state is the initial
one. -/
theorem c4_state_only_from_returns {St : Type} (reg : Registry St) (truthy : St → Bool)
    (maxD fuel : Nat) (acts : List String) (s : St) (r : SeqRes St)
    (h : runSeq reg truthy maxD fuel acts s = some r) :
    r.state = applyUpd s r.updates ∧
    (∀ u ∈ r.updates, truthy u = true ∧ some u ∈ r.rets) ∧
    ((∀ x ∈ r.rets, x = none) → r.state = s) := by
  obtain ⟨h1, h2⟩ := runSeq_inv reg truthy maxD fuel acts s r h
  refine ⟨h1, h2, ?_⟩
  intro hall
  have hupd : r.updates = [] := by
    by_contra hne
    obtain ⟨u, hu⟩ := List.exists_mem_of_ne_nil r.updates hne
    obtain ⟨_, hmem⟩ := h2 u hu
    exact Option.some_ne_none u (hall (some u) hmem)
  rw [h1, hupd]
  rfl

/-- C4 witness: two dispatches to a side-effect-only handler leave the
state at its initial value 5. -/
theorem c4_state_only_from_returns_witness :
    runSeq regSide truthyInt 20 2 ["A", "A"] (5 : Int) =
      some { state := 5, outcomes := [.resolved none, .resolved none],
             invoked := ["A", "A"], rets := [none, none], updates := [] } ∧
    ((5 : Int) = applyUpd (5 : Int) [] ∧
     (∀ u ∈ ([] : List Int), truthyInt u = true ∧ some u ∈ [(none : Option Int), none]) ∧
     ((∀ x ∈ [(none : Option Int), none], x = none) → (5 : Int) = 5)) :=
  ⟨by decide, c4_state_only_from_returns regSide truthyInt 20 2 ["A", "A"] 5
    { state := 5, outcomes := [.resolved none, .resolved none],
      invoked := ["A", "A"], rets := [none, none], updates := [] } (by decide)⟩

/-- C5, amended: for a dispatch handled by exactly one registered handler,
the promise resolves with the new state if the handler returned a truthy
state, resolves with `undefined` if it returned nothing — or a falsy
value, the one amendment the counterexample forces — and rejects with the
handler's error if it threw; exactly one settlement occurs in each case.
The spec's concrete scenario holds: from initial state `{}` with effect A
returning `{a: 1}`, `dispatch("A")` resolves and afterwards `state.a = 1`
and `state.b` is undefined. -/
theorem c5_single_handler_settlement {St : Type} (truthy : St → Bool) (reg : Registry St)
    (maxD fuel : Nat) (a : String) (eff : Effect St) (s : St)
    (hreg : reg a = some eff) :
    (∀ v, eff s = .ret (some v) → truthy v = true →
      dispatchTop reg truthy maxD true (fuel + 2) a s =
        some { state := v, trace := [(a, 1)], outcome := .resolved (some v),
               invoked := [a], rets := [some v], updates := [v], settles := 1 }) ∧
    (∀ v, eff s = .ret (some v) → truthy v = false →
      dispatchTop reg truthy maxD true (fuel + 2) a s =
        some { state := s, trace := [(a, 1)], outcome := .resolved none,
               invoked := [a], rets := [some v], updates := [], settles := 1 }) ∧
    (eff s = .ret none →
      dispatchTop reg truthy maxD true (fuel + 2) a s =
        some { state := s, trace := [(a, 1)], outcome := .resolved none,
               invoked := [a], rets := [none], updates := [], settles := 1 }) ∧
    (∀ msg, eff s = .throwE msg →
      dispatchTop reg truthy maxD true (fuel + 2) a s =
        some { state := s, trace := [(a, 1)], outcome := .rejected msg,
               invoked := [a], rets := [], updates := [], settles := 1 }) ∧
    (dispatchTop regA truthyObj 20 true 2 "A" [] =
      some { state := [("a", 1)], trace := [("A", 1)],
             outcome := .resolved (some [("a", 1)]),
             invoked := ["A"], rets := [some [("a", 1)]],
             updates := [[("a", 1)]], settles := 1 } ∧
     assocGet ([("a", 1)] : Obj) "a" = some 1 ∧
     assocGet ([("a", 1)] : Obj) "b" = none) := by
  refine ⟨?_, ?_, ?_, ?_, by decide, by decide, by decide⟩
  · intro v hb ht
    rw [dispatchTop_live, show fuel + 2 = (fuel + 1) + 1 from rfl, dispatchOn_succ,
        getNextTrace_none]
    dsimp only
    rw [hreg]
    dsimp only
    rw [hb, runBody_ret]
    dsimp only
    rw [ht]
    simp
  · intro v hb ht
    rw [dispatchTop_live, show fuel + 2 = (fuel + 1) + 1 from rfl, dispatchOn_succ,
        getNextTrace_none]
    dsimp only
    rw [hreg]
    dsimp only
    rw [hb, runBody_ret]
    dsimp only
    rw [ht]
    simp
  · intro hb
    rw [dispatchTop_live, show fuel + 2 = (fuel + 1) + 1 from rfl, dispatchOn_succ,
        getNextTrace_none]
    dsimp only
    rw [hreg]
    dsimp only
    rw [hb, runBody_ret]
    rfl
  · intro msg hb
    rw [dispatchTop_live, show fuel + 2 = (fuel + 1) + 1 from rfl, dispatchOn_succ,
        getNextTrace_none]
    dsimp only
    rw [hreg]
    dsimp only
    rw [hb, runBody_throw]

/-- C5 witness: a handler returning the truthy state 1 resolves the
promise with 1 and the snapshot becomes 1. -/
theorem c5_single_handler_settlement_witness :
    regChain 0 "W" = some (fun _ => seqBody 0 1) ∧ truthyInt 1 = true ∧
    dispatchTop (regChain 0) truthyInt 20 true (0 + 2) "W" (5 : Int) =
      some { state := 1, trace := [("W", 1)], outcome := .resolved (some 1),
             invoked := ["W"], rets := [some 1], updates := [1], settles := 1 } :=
  ⟨rfl, by decide,
    (c5_single_handler_settlement truthyInt (regChain 0) 20 0 "W"
      (fun _ => seqBody 0 1) 5 rfl).1 1 rfl (by decide)⟩

/-- C5 counterexample to the claim as stated: the handler for `"A"`
returns the state 0 — a state of the state type `Int` — yet the promise
resolves with `undefined`, not with the returned state, and the snapshot
stays 5. -/
theorem c5_counterexample :
    dispatchTop regZero truthyInt 20 true 2 "A" (5 : Int) =
      some { state := 5, trace := [("A", 1)], outcome := .resolved none,
             invoked := ["A"], rets := [some 0], updates := [], settles := 1 } ∧
    Outcome.resolved (some (0 : Int)) ≠ Outcome.resolved (none : Option Int) := by
  decide

/-- C6: when the guard trips, `getNextTrace` throws inside the promise
executor; the `Promise` constructor turns it into a rejection carrying the
error that names the action and the count, the dispatch call itself
returns normally, and nothing is published to the bus: no listener fires,
no effect completes, no state write. -/
theorem c6_guard_rejection_not_published {St : Type} (reg : Registry St)
    (truthy : St → Bool) (maxD fuel : Nat) (a : String) (tr : TraceMap) (s : St)
    (h : traceGet tr a > maxD) :
    dispatchOn reg truthy maxD (fuel + 1) a (some tr) s =
      some { state := s, trace := tr, outcome := .rejected (errMsg ⟨a, traceGet tr a⟩),
             invoked := [], rets := [], updates := [], settles := 1 } :=
  dispatchOn_err reg truthy maxD fuel a tr s h

/-- C6 witness: with an inherited count of 3 over a maximum of 2, the
dispatch of `"A"` rejects with the depth message and its registered
handler is not invoked. -/
theorem c6_guard_rejection_not_published_witness :
    traceGet [("A", 3)] "A" > 2 ∧
    dispatchOn regZero truthyInt 2 (0 + 1) "A" (some [("A", 3)]) (5 : Int) =
      some { state := 5, trace := [("A", 3)],
             outcome := .rejected "Max circular dispatch depth of 3 reached for A",
             invoked := [], rets := [], updates := [], settles := 1 } :=
  ⟨by decide, c6_guard_rejection_not_published regZero truthyInt 2 0 "A" [("A", 3)] 5 (by decide)⟩

/-- C7: dispatching an action with no registered handler on a live target
returns a promise nothing ever settles: the run ends with the promise
pending, zero settlements, no listener fired and the state unchanged. -/
theorem c7_unregistered_action_pending {St : Type} (reg : Registry St)
    (truthy : St → Bool) (maxD fuel : Nat) (a : String) (s : St)
    (h : reg a = none) :
    dispatchTop reg truthy maxD true (fuel + 1) a s =
      some { state := s, trace := [(a, 1)], outcome := .pending,
             invoked := [], rets := [], updates := [], settles := 0 } := by
  rw [dispatchTop_live, dispatchOn_succ, getNextTrace_none]
  dsimp only
  rw [h]

/-- C7 witness: `"B"` has no handler in `regZero`; its dispatch stays
pending. -/
theorem c7_unregistered_action_pending_witness :
    regZero "B" = none ∧
    dispatchTop regZero truthyInt 20 true (0 + 1) "B" (5 : Int) =
      some { state := 5, trace := [("B", 1)], outcome := .pending,
             invoked := [], rets := [], updates := [], settles := 0 } :=
  ⟨rfl, c7_unregistered_action_pending regZero truthyInt 20 0 "B" 5 rfl⟩

/-- C8: every user-initiated dispatch starts from no inherited trace, so
its action's fresh trace entry is 1; and the last dispatch of any awaited
sequence behaves exactly as a fresh dispatch from the accumulated state —
counts from earlier top-level dispatches never reach its guard. -/
theorem c8_top_level_fresh_trace {St : Type} (reg : Registry St)
    (truthy : St → Bool) (maxD fuel : Nat) :
    (∀ a : String, getNextTrace maxD a none = .ok [(a, 1)]) ∧
    (∀ (a : String) (s : St), dispatchTop reg truthy maxD true fuel a s =
        dispatchOn reg truthy maxD fuel a none s) ∧
    (∀ (acts : List String) (a : String) (s : St) (r : SeqRes St),
      runSeq reg truthy maxD fuel (acts ++ [a]) s = some r →
      ∃ r1 d, runSeq reg truthy maxD fuel acts s = some r1 ∧
        dispatchTop reg truthy maxD true fuel a r1.state = some d ∧
        r.outcomes = r1.outcomes ++ [d.outcome] ∧ r.state = d.state) :=
  ⟨fun a => getNextTrace_none maxD a,
   fun a s => dispatchTop_live reg truthy maxD fuel a s,
   runSeq_last_independent reg truthy maxD fuel⟩

/-- C8 witness: after a first dispatch of `"A"`, the second dispatch of
`"A"` is reproduced by a fresh top-level dispatch from the reached state. -/
theorem c8_top_level_fresh_trace_witness :
    runSeq regSide truthyInt 20 2 (["A"] ++ ["A"]) (5 : Int) =
      some { state := 5, outcomes := [.resolved none, .resolved none],
             invoked := ["A", "A"], rets := [none, none], updates := [] } ∧
    (∃ r1 d, runSeq regSide truthyInt 20 2 ["A"] (5 : Int) = some r1 ∧
      dispatchTop regSide truthyInt 20 true 2 "A" r1.state = some d ∧
      ({ state := 5, outcomes := [.resolved none, .resolved none],
         invoked := ["A", "A"], rets := [none, none],
         updates := [] } : SeqRes Int).outcomes = r1.outcomes ++ [d.outcome] ∧
      ({ state := 5, outcomes := [.resolved none, .resolved none],
         invoked := ["A", "A"], rets := [none, none],
         updates := [] } : SeqRes Int).state = d.state) :=
  ⟨by decide,
    (c8_top_level_fresh_trace regSide truthyInt 20 2).2.2 ["A"] "A" 5 _ (by decide)⟩

/-- C9, amended: teardown of any reachable engine state detaches every
handler from the bus (every action's bus listener list ends empty) and
discards the target, but it does not clear the registry map: the
`allEffectsArray` entries survive, only inert. The original claim's
"the registry holds no entries" fails (see the counterexample). -/
theorem c9_cleanup_detaches_all (ops : List (String × Nat)) (a : String) :
    (cleanup (applyOps ops initRegState)).alive = false ∧
    (assocGet (cleanup (applyOps ops initRegState)).bus a).getD [] = [] ∧
    (cleanup (applyOps ops initRegState)).registry = (applyOps ops initRegState).registry :=
  ⟨cleanup_alive _, cleanup_bus_empty _ (regInv_applyOps ops _ regInv_init) a,
   cleanup_registry _⟩

/-- C9 counterexample to the claim as stated: after registering one
effect for `"A"` and tearing down, the registry still holds the `"A"`
entry — it is not cleared. -/
theorem c9_counterexample :
    (cleanup (addEffect initRegState "A" 0)).registry = [("A", [0])] ∧
    (cleanup (addEffect initRegState "A" 0)).registry ≠ [] := by
  decide

/-- C10: a handler completing with a defined but falsy value is treated
exactly like one returning nothing: the snapshot is not written and the
promise resolves with `undefined`, not with the returned value. -/
theorem c10_falsy_treated_as_void {St : Type} (truthy : St → Bool) (reg : Registry St)
    (maxD fuel : Nat) (a : String) (eff : Effect St) (s v : St)
    (hreg : reg a = some eff) (hb : eff s = .ret (some v)) (hf : truthy v = false) :
    dispatchTop reg truthy maxD true (fuel + 2) a s =
      some { state := s, trace := [(a, 1)], outcome := .resolved none,
             invoked := [a], rets := [some v], updates := [], settles := 1 } := by
  rw [dispatchTop_live, show fuel + 2 = (fuel + 1) + 1 from rfl, dispatchOn_succ,
      getNextTrace_none]
  dsimp only
  rw [hreg]
  dsimp only
  rw [hb, runBody_ret]
  dsimp only
  rw [hf]
  simp

/-- C10 witness: the handler returns the falsy number 0; the state stays
5 and the promise resolves with `undefined`. -/
theorem c10_falsy_treated_as_void_witness :
    regZero "A" = some (fun _ => .ret (some 0)) ∧ truthyInt 0 = false ∧
    dispatchTop regZero truthyInt 20 true (0 + 2) "A" (5 : Int) =
      some { state := 5, trace := [("A", 1)], outcome := .resolved none,
             invoked := ["A"], rets := [some 0], updates := [], settles := 1 } :=
  ⟨rfl, by decide,
    c10_falsy_treated_as_void truthyInt regZero 20 0 "A" (fun _ => .ret (some 0)) 5 0
      rfl rfl (by decide)⟩

end UseEffectState
